import Mathlib

/-!
Verification of the sort/renumber engine and the sheet flows of the
construction expense tracker (src/index.py).

The spreadsheet is modelled as a list of rows; a row is a list of cells.
Each function below is a shallow embedding of the corresponding Python
function. The `except` arms that fire only on backend/API failures have no
trigger in the pure model; the two data-dependent error paths — the
date-parsing fallback inside `parse_date` and the pandas `DataFrame`
constructor failure inside `get_expenses_from_sheet` (ragged rows whose
maximum width differs from the header width) — are embedded exactly.
-/

namespace ExpenseTracker

/-- A spreadsheet cell. Python rows mix value kinds: the sheets API delivers
strings, `sort_data_by_date` writes `int` serial numbers into column 0, and
`add_expense_to_sheet` places the amount as a float (modelled as `ℚ`). -/
inductive Cell where
  | int (n : ℤ)
  | str (s : String)
  | num (q : ℚ)
deriving DecidableEq, Repr

abbrev Row := List Cell

/-- Python `str()` applied to a cell value. `str` of an `int` is its decimal
rendering, matching `toString` on `ℤ`. `str` of a float always contains a
`.`, an `e`, or letters — never a `/` — so it can never match `DD/MM/YYYY`;
any slash-free placeholder is faithful for the date parser's purposes. -/
def Cell.pyStr : Cell → String
  | .int n => toString n
  | .str s => s
  | .num _ => "(float)"

/-- Numeric value of a digit string, most significant digit first. -/
def digitsVal (l : List Char) : ℕ :=
  l.foldl (fun a c => 10 * a + (c.toNat - '0'.toNat)) 0

/-- Split a character list on `/`, exactly like Python `re` matching the
compiled `%d/%m/%Y` pattern decomposes the subject: the day, month and year
alternations contain no slash, so a regex match exists iff the left-to-right
split into slash-free parts has exactly three components of the right shape. -/
def splitSlash : List Char → List (List Char)
  | [] => [[]]
  | c :: cs =>
    if c = '/' then [] :: splitSlash cs
    else
      match splitSlash cs with
      | [] => [[c]]
      | p :: ps => (c :: p) :: ps

/-- Gregorian leap-year rule, as used by Python `datetime`. -/
def isLeap (y : ℕ) : Bool := y % 4 = 0 && (y % 100 ≠ 0 || y % 400 = 0)

/-- Days in a month, as validated by the `datetime` constructor. -/
def daysInMonth (m y : ℕ) : ℕ :=
  if m = 2 then (if isLeap y then 29 else 28)
  else if m = 4 ∨ m = 6 ∨ m = 9 ∨ m = 11 then 30
  else 31

/-- A day or month field of `strptime`'s `%d` / `%m`: one or two digits,
value between 1 and `hi` (the regex alternations `3[01]|[12]\d|0[1-9]|[1-9]`
and `1[0-2]|0[1-9]|[1-9]` accept exactly these strings). -/
def fieldVal12 (l : List Char) (hi : ℕ) : Option ℕ :=
  if l.all Char.isDigit ∧ (l.length = 1 ∨ l.length = 2)
      ∧ 1 ≤ digitsVal l ∧ digitsVal l ≤ hi then
    some (digitsVal l)
  else none

/-- The `%d` field of `strptime`. Its alternation is
`3[0-1]|[1-2]\d|0[1-9]|[1-9]| [1-9]`: besides the one- and two-digit forms it
also accepts a space-padded single nonzero digit (CPython's `_strptime`). -/
def dayField (l : List Char) : Option ℕ :=
  match l with
  | [' ', c] => if c.isDigit ∧ c ≠ '0' then some (c.toNat - '0'.toNat) else none
  | _ => fieldVal12 l 31

/-- The `%Y` field of `strptime`: exactly four digits. -/
def year4 (l : List Char) : Option ℕ :=
  if l.all Char.isDigit ∧ l.length = 4 then some (digitsVal l) else none

/-- Encode a date as `y * 10000 + m * 100 + d`: with `m ≤ 12` and `d ≤ 31`
this is order-isomorphic to the lexicographic (year, month, day) order that
`datetime` objects compare by (all parsed times are midnight). -/
def encodeDate (y m d : ℕ) : ℕ := y * 10000 + m * 100 + d

/-- Key of `datetime.min`, i.e. `datetime(1, 1, 1)`. -/
def minDateKey : ℕ := encodeDate 1 1 1

/-- `datetime.strptime(s, '%d/%m/%Y')` followed by the `datetime` constructor
validation: the whole string must decompose as day `/` month `/` four-digit
year, the day must exist in that month, and the year must be ≥ `MINYEAR = 1`.
Returns `none` where Python raises `ValueError`. -/
def parseDMY (s : String) : Option ℕ :=
  match splitSlash s.toList with
  | [d, m, y] =>
    match dayField d, fieldVal12 m 12, year4 y with
    | some dv, some mv, some yv =>
      if 1 ≤ yv ∧ dv ≤ daysInMonth mv yv then some (encodeDate yv mv dv)
      else none
    | _, _, _ => none
  | _ => none

/-- `parse_date` from `sort_data_by_date`: on any parse failure the bare
`except` returns `datetime.min` instead of propagating the error. -/
def parse_date (c : Cell) : ℕ :=
  (parseDMY c.pyStr).getD minDateKey

/-- The sort key of one row: `parse_date(row[1]) if len(row) > 1 else
datetime.min` (line 161 of src/index.py). -/
def sortKey (r : Row) : ℕ :=
  match r with
  | _ :: d :: _ => parse_date d
  | _ => minDateKey

/-- Stable descending insertion of a row: `x` goes in front of the first
element whose key is not strictly greater. Python's `sorted(..., reverse=True)`
is a stable sort run descending; stable-descending output is unique, so this
insertion sort computes exactly what `sorted` returns. -/
def insertDesc (x : Row) : List Row → List Row
  | [] => [x]
  | y :: ys => if sortKey x < sortKey y then y :: insertDesc x ys else x :: y :: ys

/-- Stable descending sort by `sortKey`, modelling line 160-162 of
src/index.py: `sorted(data_rows, key=..., reverse=True)`. -/
def sortRowsDesc : List Row → List Row
  | [] => []
  | x :: xs => insertDesc x (sortRowsDesc xs)

/-- One step of the renumbering loop: `if len(row) > 0: row[0] = i`
(lines 165-167 of src/index.py). Empty rows are left untouched. -/
def renumberRow (i : ℕ) : Row → Row
  | [] => []
  | _ :: t => Cell.int (i : ℤ) :: t

/-- `for i, row in enumerate(sorted_rows, 1): ...` — assign 1-based
positions from `i` upward. -/
def renumberFrom : ℕ → List Row → List Row
  | _, [] => []
  | i, r :: rs => renumberRow i r :: renumberFrom (i + 1) rs

/-- `sort_data_by_date` (src/index.py lines 143-174): tables of length ≤ 1
are returned unchanged; otherwise the data rows are stably sorted newest
first and renumbered, and the header is prefixed back. -/
def sort_data_by_date (all_data : List Row) : List Row :=
  if all_data.length ≤ 1 then all_data
  else
    match all_data with
    | [] => all_data
    | headers :: data_rows => headers :: renumberFrom 1 (sortRowsDesc data_rows)

/-- The canonical header row synthesized when the sheet is empty. -/
def defaultHeaders : Row :=
  [Cell.str "Sl No", Cell.str "Date", Cell.str "Item Description",
   Cell.str "Vendor", Cell.str "Bill Number", Cell.str "Amount"]

/-- The five user-supplied fields of a new expense. -/
structure ExpenseData where
  date : String
  description : String
  vendor : String
  bill_number : String
  amount : ℚ
deriving DecidableEq, Repr

/-- `add_expense_to_sheet` (src/index.py lines 104-140), with the store
passed explicitly: fetch, synthesize headers if empty, build the new row
with serial `len(all_data)`, append it, sort, and persist. Returns the
table written by `update_sheet_data` and the `True` result. -/
def add_expense_to_sheet (store : List Row) (e : ExpenseData) : List Row × Bool :=
  let all_data := store
  let all_data := if all_data = [] then [defaultHeaders] else all_data
  let next_sl_no := all_data.length
  let row_data : Row :=
    [Cell.int (next_sl_no : ℤ), Cell.str e.date, Cell.str e.description,
     Cell.str e.vendor, Cell.str e.bill_number, Cell.num e.amount]
  let sorted_data := sort_data_by_date (all_data ++ [row_data])
  (sorted_data, true)

/-- The submit handler of `main` (src/index.py lines 312-328): the expense
is built and stored only when `description and vendor and amount > 0` is
truthy (non-empty strings, positive amount); the bill number defaults to
`"N/A"` when empty. Returns the resulting store and whether the add ran. -/
def submit_expense (store : List Row) (expense_date description vendor bill_number : String)
    (amount : ℚ) : List Row × Bool :=
  if description ≠ "" ∧ vendor ≠ "" ∧ 0 < amount then
    add_expense_to_sheet store
      { date := expense_date, description := description, vendor := vendor,
        bill_number := if bill_number ≠ "" then bill_number else "N/A",
        amount := amount }
  else
    (store, false)

/-- A cell of the returned DataFrame: a sheet value, or `none` for the `NaN`
that pandas pads short rows with. -/
abbrev DfCell := Option Cell

/-- Pad a row with `NaN` up to width `w`, as pandas' `to_object_array` does
when it assembles a ragged list of lists into a rectangular block. -/
def padRow (w : ℕ) (r : Row) : List DfCell :=
  r.map some ++ List.replicate (w - r.length) none

/-- Width of the widest row: the column count pandas derives from a list of
lists before comparing it against `len(columns)`. -/
def maxWidth (l : List Row) : ℕ :=
  l.foldr (fun r acc => max r.length acc) 0

/-- `get_expenses_from_sheet` (src/index.py lines 177-204), with the store
explicit. Result: `((store after the call, whether update_sheet_data was
called), the DataFrame contents as header × padded data rows, or none when
the DataFrame is empty)`. Tables of length ≤ 1 short-circuit to an empty
DataFrame with no write. Otherwise the sorted table is written back, and
then `pd.DataFrame(data_rows, columns=headers)` (line 197) is attempted:
pandas pads ragged rows with `NaN` to the widest row and raises an
`AssertionError` unless that width equals the header length, in which case
the `except` at line 202 returns the empty DataFrame — after the write-back
has already happened. -/
def get_expenses_from_sheet (store : List Row) :
    (List Row × Bool) × Option (Row × List (List DfCell)) :=
  if store.length ≤ 1 then ((store, false), none)
  else
    let sorted_data := sort_data_by_date store
    match sorted_data with
    | [] => (([], true), none)
    | h :: d =>
      ((h :: d, true),
       if d = [] then none
       else if maxWidth d = h.length then some (h, d.map (padRow h.length))
       else none)

/-- A data row whose date is missing (fewer than two fields) or whose date
field fails to parse as `DD/MM/YYYY`. -/
def rowDateInvalid (r : Row) : Bool :=
  match r with
  | _ :: d :: _ => (parseDMY d.pyStr).isNone
  | _ => true

/-- The spec's sentence, literally: in the sorted output, every data row with
a missing or unparsable date is placed after all rows with valid dates. -/
def invalidRowsLastClaim : Prop :=
  ∀ (h : Row) (rows : List Row) (i j : ℕ)
    (hi : i < ((sort_data_by_date (h :: rows)).tail).length)
    (hj : j < ((sort_data_by_date (h :: rows)).tail).length),
    rowDateInvalid (((sort_data_by_date (h :: rows)).tail).get ⟨i, hi⟩) = true →
    rowDateInvalid (((sort_data_by_date (h :: rows)).tail).get ⟨j, hj⟩) = false →
    j < i

/-- The spec's sentence, literally: after `add_expense_to_sheet` the persisted
data rows are in oldest-first (ascending by parsed date) order. -/
def addSortsAscendingClaim : Prop :=
  ∀ (store : List Row) (e : ExpenseData),
    ((add_expense_to_sheet store e).1.tail).Pairwise
      (fun a b => sortKey a ≤ sortKey b)

/-- The claim, literally: whenever the fetched table has at least one data
row, retrieval writes the sorted table back and returns it — header plus
the sorted data rows as the DataFrame contents. -/
def retrievalReturnsSortedClaim : Prop :=
  ∀ store : List Row, 1 < store.length →
    (get_expenses_from_sheet store).1 = (sort_data_by_date store, true) ∧
    ∃ h d, sort_data_by_date store = h :: d ∧
      (get_expenses_from_sheet store).2 = some (h, d.map (padRow h.length))

/-! ### Lemmas about renumbering -/

theorem sortKey_renumberRow (i : ℕ) (r : Row) :
    sortKey (renumberRow i r) = sortKey r := by
  match r with
  | [] => rfl
  | [_] => rfl
  | _ :: _ :: _ => rfl

theorem length_renumberFrom (i : ℕ) (l : List Row) :
    (renumberFrom i l).length = l.length := by
  induction l generalizing i with
  | nil => rfl
  | cons r rs ih => simp [renumberFrom, ih]

theorem map_sortKey_renumberFrom (i : ℕ) (l : List Row) :
    (renumberFrom i l).map sortKey = l.map sortKey := by
  induction l generalizing i with
  | nil => rfl
  | cons r rs ih => simp [renumberFrom, sortKey_renumberRow, ih]

theorem map_drop_renumberFrom (i : ℕ) (l : List Row) :
    (renumberFrom i l).map (List.drop 1) = l.map (List.drop 1) := by
  induction l generalizing i with
  | nil => rfl
  | cons r rs ih =>
    cases r with
    | nil => simp [renumberFrom, renumberRow, ih]
    | cons c t => simp [renumberFrom, renumberRow, ih]

theorem renumberRow_renumberRow (i j : ℕ) (r : Row) :
    renumberRow i (renumberRow j r) = renumberRow i r := by
  cases r <;> rfl

theorem renumberFrom_renumberFrom (i : ℕ) (l : List Row) :
    renumberFrom i (renumberFrom i l) = renumberFrom i l := by
  induction l generalizing i with
  | nil => rfl
  | cons r rs ih => simp [renumberFrom, renumberRow_renumberRow, ih]

theorem get_renumberFrom (i : ℕ) (l : List Row) (j : ℕ) (hj : j < l.length)
    (hj' : j < (renumberFrom i l).length) :
    (renumberFrom i l).get ⟨j, hj'⟩ = renumberRow (i + j) (l.get ⟨j, hj⟩) := by
  induction l generalizing i j with
  | nil => exact absurd hj (Nat.not_lt_zero j)
  | cons r rs ih =>
    cases j with
    | zero => rfl
    | succ j =>
      have hj2 : j < rs.length := Nat.lt_of_succ_lt_succ hj
      have hj2' : j < (renumberFrom (i + 1) rs).length := by
        rw [length_renumberFrom]; exact hj2
      have := ih (i + 1) j hj2 hj2'
      simpa [renumberFrom, Nat.add_assoc, Nat.add_comm 1 j] using this

theorem forall₂_renumberFrom (i : ℕ) (l : List Row) :
    List.Forall₂ (fun a b => a.length = b.length ∧ a.drop 1 = b.drop 1)
      (renumberFrom i l) l := by
  induction l generalizing i with
  | nil => exact List.Forall₂.nil
  | cons r rs ih =>
    refine List.Forall₂.cons ?_ (ih (i + 1))
    cases r with
    | nil => exact ⟨rfl, rfl⟩
    | cons c t => exact ⟨rfl, rfl⟩

theorem length_pos_renumberRow (i : ℕ) (r : Row) (h : r ≠ []) :
    (renumberRow i r).head? = some (Cell.int (i : ℤ)) := by
  cases r with
  | nil => exact absurd rfl h
  | cons c t => rfl

/-! ### Lemmas about the stable descending sort -/

theorem perm_insertDesc (x : Row) (l : List Row) :
    (insertDesc x l).Perm (x :: l) := by
  induction l with
  | nil => exact List.Perm.refl _
  | cons y ys ih =>
    by_cases hk : sortKey x < sortKey y
    · simp only [insertDesc, if_pos hk]
      exact (ih.cons y).trans (List.Perm.swap x y ys)
    · simp only [insertDesc, if_neg hk]
      exact List.Perm.refl _

theorem perm_sortRowsDesc (l : List Row) : (sortRowsDesc l).Perm l := by
  induction l with
  | nil => exact List.Perm.refl _
  | cons x xs ih =>
    exact (perm_insertDesc x (sortRowsDesc xs)).trans (ih.cons x)

theorem pairwise_insertDesc (x : Row) (l : List Row)
    (h : l.Pairwise (fun a b => sortKey b ≤ sortKey a)) :
    (insertDesc x l).Pairwise (fun a b => sortKey b ≤ sortKey a) := by
  induction l with
  | nil => simp [insertDesc]
  | cons y ys ih =>
    rw [List.pairwise_cons] at h
    obtain ⟨hy, hys⟩ := h
    by_cases hk : sortKey x < sortKey y
    · simp only [insertDesc, if_pos hk]
      rw [List.pairwise_cons]
      refine ⟨fun z hz => ?_, ih hys⟩
      have hz2 : z = x ∨ z ∈ ys := by
        simpa using (perm_insertDesc x ys).mem_iff.mp hz
      rcases hz2 with hzx | hzy
      · exact hzx ▸ Nat.le_of_lt hk
      · exact hy z hzy
    · simp only [insertDesc, if_neg hk]
      rw [List.pairwise_cons]
      refine ⟨fun z hz => ?_, ?_⟩
      · rcases List.mem_cons.mp hz with hzy | hzy
        · exact hzy ▸ Nat.le_of_not_lt hk
        · exact Nat.le_trans (hy z hzy) (Nat.le_of_not_lt hk)
      · rw [List.pairwise_cons]
        exact ⟨hy, hys⟩

theorem pairwise_sortRowsDesc (l : List Row) :
    (sortRowsDesc l).Pairwise (fun a b => sortKey b ≤ sortKey a) := by
  induction l with
  | nil => simp [sortRowsDesc]
  | cons x xs ih => exact pairwise_insertDesc x (sortRowsDesc xs) ih

theorem pairwise_renumberFrom (i : ℕ) (l : List Row)
    (h : l.Pairwise (fun a b => sortKey b ≤ sortKey a)) :
    (renumberFrom i l).Pairwise (fun a b => sortKey b ≤ sortKey a) := by
  have h2 : (l.map sortKey).Pairwise (fun u v => v ≤ u) := List.pairwise_map.mpr h
  have h3 : ((renumberFrom i l).map sortKey).Pairwise (fun u v => v ≤ u) := by
    rw [map_sortKey_renumberFrom]; exact h2
  exact List.pairwise_map.mp h3

theorem sortRowsDesc_eq_of_pairwise (l : List Row)
    (h : l.Pairwise (fun a b => sortKey b ≤ sortKey a)) :
    sortRowsDesc l = l := by
  induction l with
  | nil => rfl
  | cons x xs ih =>
    rw [List.pairwise_cons] at h
    obtain ⟨hx, hxs⟩ := h
    rw [sortRowsDesc, ih hxs]
    cases xs with
    | nil => rfl
    | cons y ys =>
      have : ¬ sortKey x < sortKey y :=
        Nat.not_lt.mpr (hx y (List.mem_cons_self y ys))
      simp [insertDesc, this]

theorem filter_insertDesc (k : ℕ) (x : Row) (l : List Row) :
    (insertDesc x l).filter (fun r => sortKey r == k)
      = (x :: l).filter (fun r => sortKey r == k) := by
  induction l with
  | nil => rfl
  | cons y ys ih =>
    by_cases hk : sortKey x < sortKey y
    · simp only [insertDesc, if_pos hk]
      by_cases hx : sortKey x = k
      · have hy : ¬ sortKey y = k := fun hy => by
          rw [hx, ← hy] at hk; exact Nat.lt_irrefl _ hk
        simp [List.filter_cons, beq_iff_eq, hx, hy, ih]
      · by_cases hy : sortKey y = k
        · simp [List.filter_cons, beq_iff_eq, hx, hy, ih]
        · simp [List.filter_cons, beq_iff_eq, hx, hy, ih]
    · simp only [insertDesc, if_neg hk]

theorem filter_sortRowsDesc (k : ℕ) (l : List Row) :
    (sortRowsDesc l).filter (fun r => sortKey r == k)
      = l.filter (fun r => sortKey r == k) := by
  induction l with
  | nil => rfl
  | cons x xs ih =>
    rw [sortRowsDesc, filter_insertDesc]
    by_cases hx : sortKey x = k
    · simp [List.filter_cons, beq_iff_eq, hx, ih]
    · simp [List.filter_cons, beq_iff_eq, hx, ih]

/-! ### The shape of a sorted table -/

theorem sort_data_by_date_cons (h : Row) (rows : List Row) :
    sort_data_by_date (h :: rows) = h :: renumberFrom 1 (sortRowsDesc rows) := by
  cases rows with
  | nil => rfl
  | cons a l => rfl

theorem sortKey_eq_min_of_invalid (r : Row) (hr : rowDateInvalid r = true) :
    sortKey r = minDateKey := by
  match r with
  | [] => rfl
  | [c] => rfl
  | c :: d :: t =>
    simp only [rowDateInvalid, Option.isNone_iff_eq_none] at hr
    simp only [sortKey, parse_date, hr, Option.getD_none]

/-! ### Claim theorems -/

/-- C5: for every input table the header row is returned as row 0 of the
sort's output unchanged; only the data rows are ordered and renumbered. -/
theorem header_preserved_by_sort (h : Row) (rows : List Row) :
    sort_data_by_date (h :: rows) = h :: renumberFrom 1 (sortRowsDesc rows) :=
  sort_data_by_date_cons h rows

/-- C6: a table that is empty or header-only (length ≤ 1) is returned by the
sort/renumber routine unchanged. -/
theorem sort_noop_on_small (all_data : List Row) (hs : all_data.length ≤ 1) :
    sort_data_by_date all_data = all_data := by
  simp [sort_data_by_date, hs]

/-- Witness for C6 at the header-only table. -/
theorem sort_noop_on_small_witness :
    sort_data_by_date [defaultHeaders] = [defaultHeaders] :=
  sort_noop_on_small [defaultHeaders] (by decide)

/-- C3: the sort compares rows by parsed date only and is stable — the output
data rows are ordered newest first by `sortKey` (which reads only the parsed
date), and for every key value the rows carrying that key appear in exactly
their input order. -/
theorem sort_stable_by_date_only (h : Row) (rows : List Row) :
    sort_data_by_date (h :: rows) = h :: renumberFrom 1 (sortRowsDesc rows)
      ∧ (sortRowsDesc rows).Pairwise (fun a b => sortKey b ≤ sortKey a)
      ∧ ∀ k : ℕ, (sortRowsDesc rows).filter (fun r => sortKey r == k)
          = rows.filter (fun r => sortKey r == k) :=
  ⟨sort_data_by_date_cons h rows, pairwise_sortRowsDesc rows,
   fun k => filter_sortRowsDesc k rows⟩

/-- C4: the sort/renumber routine is idempotent — applying it twice yields
the same table as applying it once. -/
theorem sort_idempotent (all_data : List Row) :
    sort_data_by_date (sort_data_by_date all_data) = sort_data_by_date all_data := by
  match all_data with
  | [] => rfl
  | [h] => rfl
  | h :: a :: l =>
    rw [sort_data_by_date_cons h (a :: l),
      sort_data_by_date_cons h (renumberFrom 1 (sortRowsDesc (a :: l))),
      sortRowsDesc_eq_of_pairwise _
        (pairwise_renumberFrom 1 _ (pairwise_sortRowsDesc (a :: l))),
      renumberFrom_renumberFrom]

/-- C1: for a table whose data rows are well-formed (nonempty, as every
`ExpenseRow` of the data model is), after sorting the first field of the
data rows is exactly `1..N` in output order, recomputed from position alone
and independent of the serial values supplied by the caller. -/
theorem serials_are_positions (h : Row) (rows : List Row)
    (hrows : ∀ r ∈ rows, r ≠ ([] : Row)) :
    ((sort_data_by_date (h :: rows)).tail).length = rows.length ∧
    ∀ (j : ℕ) (hj : j < ((sort_data_by_date (h :: rows)).tail).length),
      (((sort_data_by_date (h :: rows)).tail).get ⟨j, hj⟩).head?
        = some (Cell.int ((j : ℤ) + 1)) := by
  rw [sort_data_by_date_cons]
  simp only [List.tail_cons]
  have hlen : (renumberFrom 1 (sortRowsDesc rows)).length = rows.length := by
    rw [length_renumberFrom, (perm_sortRowsDesc rows).length_eq]
  refine ⟨hlen, fun j hj => ?_⟩
  have hj2 : j < (sortRowsDesc rows).length := by
    rw [(perm_sortRowsDesc rows).length_eq]
    exact hlen ▸ hj
  rw [get_renumberFrom 1 (sortRowsDesc rows) j hj2 hj]
  have hmem : (sortRowsDesc rows).get ⟨j, hj2⟩ ∈ rows :=
    (perm_sortRowsDesc rows).mem_iff.mp (List.get_mem _ _ _)
  have hne : (sortRowsDesc rows).get ⟨j, hj2⟩ ≠ [] := hrows _ hmem
  rw [length_pos_renumberRow _ _ hne]
  have hcast : ((1 + j : ℕ) : ℤ) = (j : ℤ) + 1 := by push_cast; ring
  rw [hcast]

/-- Witness for C1 at a two-row table with shuffled serials. -/
theorem serials_are_positions_witness :
    ((sort_data_by_date
        [defaultHeaders,
         [Cell.int 9, Cell.str "01/01/2024"],
         [Cell.int 7, Cell.str "15/01/2024"]]).tail).length = 2 :=
  (serials_are_positions defaultHeaders
    [[Cell.int 9, Cell.str "01/01/2024"], [Cell.int 7, Cell.str "15/01/2024"]]
    (by decide)).1

/-- C9: the output data rows are a permutation of the input data rows in
which only the first (serial) field may differ — the tail of every row is
preserved pointwise, and the multiset of rows with field 0 removed is
preserved exactly. -/
theorem sort_rows_preserved (h : Row) (rows : List Row) :
    ∃ p : List Row, p.Perm rows ∧
      List.Forall₂ (fun a b => a.length = b.length ∧ a.drop 1 = b.drop 1)
        ((sort_data_by_date (h :: rows)).tail) p ∧
      ((sort_data_by_date (h :: rows)).tail.map (List.drop 1)).Perm
        (rows.map (List.drop 1)) := by
  refine ⟨sortRowsDesc rows, perm_sortRowsDesc rows, ?_, ?_⟩
  · rw [sort_data_by_date_cons]
    simp only [List.tail_cons]
    exact forall₂_renumberFrom 1 (sortRowsDesc rows)
  · rw [sort_data_by_date_cons]
    simp only [List.tail_cons]
    rw [map_drop_renumberFrom]
    exact (perm_sortRowsDesc rows).map (List.drop 1)

/-- C2 counterexample: the claim fails as stated. `datetime.min` is a real
date — `"01/01/0001"` parses to it — so a row with an unparsable date that
precedes such a row in the input keeps its place in front of it (the sort is
stable and both carry the same key), leaving an invalid row before a row
with a valid date. -/
theorem invalid_not_always_last : ¬ invalidRowsLastClaim := by
  intro hcl
  have h01 := hcl [Cell.str "h"]
    [[Cell.int 1, Cell.str "x"], [Cell.int 2, Cell.str "01/01/0001"]]
    0 1 (by decide) (by decide) (by decide) (by decide)
  exact absurd h01 (by decide)

/-- C2 amended: a missing or unparsable date is assigned the minimum
representable date (`datetime(1, 1, 1)`) as its sort key — the parse failure
is never propagated — and under the newest-first ordering every such row is
placed after all rows whose parsed date is strictly greater than that
minimum (a valid date equal to `01/01/0001` ties with invalid rows and the
tie is broken by input order). -/
theorem invalid_dates_get_min_key_and_sink (h : Row) (rows : List Row) :
    (∀ r : Row, rowDateInvalid r = true → sortKey r = minDateKey) ∧
    ∀ (i j : ℕ) (hi : i < ((sort_data_by_date (h :: rows)).tail).length)
      (hj : j < ((sort_data_by_date (h :: rows)).tail).length),
      rowDateInvalid (((sort_data_by_date (h :: rows)).tail).get ⟨i, hi⟩) = true →
      minDateKey < sortKey (((sort_data_by_date (h :: rows)).tail).get ⟨j, hj⟩) →
      j < i := by
  refine ⟨sortKey_eq_min_of_invalid, fun i j hi hj hinv hgt => ?_⟩
  have hpw : ((sort_data_by_date (h :: rows)).tail).Pairwise
      (fun a b => sortKey b ≤ sortKey a) := by
    rw [sort_data_by_date_cons]
    simp only [List.tail_cons]
    exact pairwise_renumberFrom 1 _ (pairwise_sortRowsDesc rows)
  have hkey : sortKey (((sort_data_by_date (h :: rows)).tail).get ⟨i, hi⟩)
      = minDateKey := sortKey_eq_min_of_invalid _ hinv
  rcases Nat.lt_trichotomy i j with hij | hij | hij
  · have hle := List.pairwise_iff_get.mp hpw ⟨i, hi⟩ ⟨j, hj⟩ hij
    rw [hkey] at hle
    exact absurd (Nat.lt_of_lt_of_le hgt hle) (Nat.lt_irrefl _)
  · subst hij
    rw [hkey] at hgt
    exact absurd hgt (Nat.lt_irrefl _)
  · exact hij

/-- Witness for the amended C2: with a valid January 2024 row and an
unparsable row, the invalid row lands strictly after the valid one. -/
theorem invalid_dates_get_min_key_and_sink_witness :
    sortKey [Cell.int 1, Cell.str "x"] = minDateKey ∧ (0 : ℕ) < 1 :=
  ⟨(invalid_dates_get_min_key_and_sink [Cell.str "h"]
      [[Cell.int 1, Cell.str "x"], [Cell.int 2, Cell.str "02/01/2024"]]).1
      [Cell.int 1, Cell.str "x"] (by decide),
   (invalid_dates_get_min_key_and_sink [Cell.str "h"]
      [[Cell.int 1, Cell.str "x"], [Cell.int 2, Cell.str "02/01/2024"]]).2
      1 0 (by decide) (by decide) (by decide) (by decide)⟩

/-- C7 counterexample: the insertion flow does not persist an oldest-first
table. Adding a 15/01/2024 expense to a sheet holding a 01/01/2024 row
persists the rows newest first, which is not ascending. -/
theorem add_not_ascending : ¬ addSortsAscendingClaim := by
  intro hcl
  have h01 := hcl
    [defaultHeaders,
     [Cell.int 1, Cell.str "01/01/2024", Cell.str "a", Cell.str "b",
      Cell.str "c", Cell.num 1]]
    { date := "15/01/2024", description := "d", vendor := "v",
      bill_number := "N/A", amount := 2 }
  exact absurd h01 (by decide)

/-- C7 amended: in the expense-insertion flow the new row is appended to the
fetched table (with the header synthesized if the sheet was empty) and the
result of `sort_data_by_date` — a newest-first (descending by date) table —
is what gets persisted; the freshly added row's fields survive in it. -/
theorem add_sorts_newest_first (store : List Row) (e : ExpenseData) :
    (add_expense_to_sheet store e).1
      = sort_data_by_date
          ((if store = [] then [defaultHeaders] else store) ++
            [[Cell.int ((if store = [] then [defaultHeaders] else store).length : ℤ),
              Cell.str e.date, Cell.str e.description, Cell.str e.vendor,
              Cell.str e.bill_number, Cell.num e.amount]]) ∧
    ((add_expense_to_sheet store e).1.tail).Pairwise
      (fun a b => sortKey b ≤ sortKey a) ∧
    ∃ r ∈ (add_expense_to_sheet store e).1.tail,
      r.drop 1 = [Cell.str e.date, Cell.str e.description, Cell.str e.vendor,
                  Cell.str e.bill_number, Cell.num e.amount] := by
  refine ⟨rfl, ?_, ?_⟩
  all_goals
    by_cases hs : store = []
  · subst hs
    show (sort_data_by_date ([defaultHeaders] ++ [_])).tail.Pairwise _
    rw [List.singleton_append, sort_data_by_date_cons]
    simp only [List.tail_cons]
    exact pairwise_renumberFrom 1 _ (pairwise_sortRowsDesc _)
  · match store, hs with
    | h :: s, _ =>
      show (sort_data_by_date ((h :: s) ++ [_])).tail.Pairwise _
      rw [List.cons_append, sort_data_by_date_cons]
      simp only [List.tail_cons]
      exact pairwise_renumberFrom 1 _ (pairwise_sortRowsDesc _)
  · subst hs
    show ∃ r ∈ (sort_data_by_date ([defaultHeaders] ++ [_])).tail, _
    rw [List.singleton_append, sort_data_by_date_cons]
    simp only [List.tail_cons]
    have hmem : ([Cell.int ([defaultHeaders].length : ℤ), Cell.str e.date,
        Cell.str e.description, Cell.str e.vendor, Cell.str e.bill_number,
        Cell.num e.amount] : Row).drop 1
        ∈ (renumberFrom 1 (sortRowsDesc [[Cell.int ([defaultHeaders].length : ℤ),
            Cell.str e.date, Cell.str e.description, Cell.str e.vendor,
            Cell.str e.bill_number, Cell.num e.amount]])).map (List.drop 1) := by
      rw [map_drop_renumberFrom]
      exact List.mem_map_of_mem _
        ((perm_sortRowsDesc _).mem_iff.mpr (List.mem_singleton_self _))
    obtain ⟨r, hr, hdrop⟩ := List.mem_map.mp hmem
    exact ⟨r, hr, hdrop⟩
  · match store, hs with
    | h :: s, _ =>
      show ∃ r ∈ (sort_data_by_date ((h :: s) ++ [_])).tail, _
      rw [List.cons_append, sort_data_by_date_cons]
      simp only [List.tail_cons]
      have hmem : ([Cell.int (((h :: s) : List Row).length : ℤ), Cell.str e.date,
          Cell.str e.description, Cell.str e.vendor, Cell.str e.bill_number,
          Cell.num e.amount] : Row).drop 1
          ∈ (renumberFrom 1 (sortRowsDesc (s ++ [[Cell.int (((h :: s) : List Row).length : ℤ),
              Cell.str e.date, Cell.str e.description, Cell.str e.vendor,
              Cell.str e.bill_number, Cell.num e.amount]]))).map (List.drop 1) := by
        rw [map_drop_renumberFrom]
        refine List.mem_map_of_mem _ ((perm_sortRowsDesc _).mem_iff.mpr ?_)
        exact List.mem_append_right s (List.mem_singleton_self _)
      obtain ⟨r, hr, hdrop⟩ := List.mem_map.mp hmem
      exact ⟨r, hr, hdrop⟩

/-- C8: an insertion attempt with an empty description, an empty vendor, or
a non-positive amount is rejected before any store call: the persisted table
is unchanged and no row is appended. -/
theorem submit_rejects_invalid (store : List Row)
    (d de v b : String) (a : ℚ)
    (hbad : de = "" ∨ v = "" ∨ a ≤ 0) :
    submit_expense store d de v b a = (store, false) := by
  have hc : ¬ (de ≠ "" ∧ v ≠ "" ∧ 0 < a) := by
    rcases hbad with h1 | h1 | h1
    · exact fun hcon => hcon.1 h1
    · exact fun hcon => hcon.2.1 h1
    · exact fun hcon => absurd hcon.2.2 (not_lt.mpr h1)
  simp [submit_expense, hc]

/-- Witness for C8: submitting with an empty description leaves the store
untouched and reports no success. -/
theorem submit_rejects_invalid_witness :
    submit_expense [defaultHeaders] "01/01/2024" "" "Vendor" "" 5
      = ([defaultHeaders], false) :=
  submit_rejects_invalid [defaultHeaders] "01/01/2024" "" "Vendor" "" 5 (Or.inl rfl)

/-- C10 counterexample: retrieval does not always return the sorted table.
The Sheets API omits trailing empty cells, so a six-column header over a
two-cell data row is reachable; pandas then raises on the width mismatch at
`pd.DataFrame(data_rows, columns=headers)` and the function returns the
empty DataFrame — even though the write-back already ran. -/
theorem get_expenses_result_can_be_empty : ¬ retrievalReturnsSortedClaim := by
  intro hcl
  have h01 := hcl [defaultHeaders, [Cell.int 1, Cell.str "01/01/2024"]] (by decide)
  obtain ⟨h, d, hsort, hsome⟩ := h01.2
  have hnone : (get_expenses_from_sheet
      [defaultHeaders, [Cell.int 1, Cell.str "01/01/2024"]]).2 = none := by decide
  rw [hnone] at hsome
  exact Option.noConfusion hsome

/-- C10 amended: retrieval is a mutating operation — whenever the fetched
table has at least one data row the sorted, renumbered table is written back
to the store before the function returns; the returned DataFrame holds that
table's header and data rows (short rows padded with `NaN`) when the widest
data row matches the header width, and is empty otherwise, the pandas
constructor having failed after the write. An empty or header-only table
triggers no write and yields the empty result. -/
theorem get_expenses_always_writes (store : List Row) :
    (store.length ≤ 1 → get_expenses_from_sheet store = ((store, false), none)) ∧
    (1 < store.length →
      (get_expenses_from_sheet store).1 = (sort_data_by_date store, true) ∧
      ∃ h d, sort_data_by_date store = h :: d ∧ d ≠ [] ∧
        (get_expenses_from_sheet store).2
          = (if maxWidth d = h.length then some (h, d.map (padRow h.length))
             else none)) := by
  constructor
  · intro hle
    simp [get_expenses_from_sheet, hle]
  · intro hgt
    match store, hgt with
    | h :: a :: l, _ =>
      have hd : renumberFrom 1 (sortRowsDesc (a :: l)) ≠ [] := by
        have hlen : (renumberFrom 1 (sortRowsDesc (a :: l))).length
            = (a :: l).length := by
          rw [length_renumberFrom, (perm_sortRowsDesc (a :: l)).length_eq]
        intro hnil
        rw [hnil] at hlen
        exact absurd hlen.symm (by simp)
      have hsorted : sort_data_by_date (h :: a :: l)
          = h :: renumberFrom 1 (sortRowsDesc (a :: l)) :=
        sort_data_by_date_cons h (a :: l)
      refine ⟨?_, h, renumberFrom 1 (sortRowsDesc (a :: l)), hsorted, hd, ?_⟩
      · simp only [get_expenses_from_sheet, hsorted]
        norm_num
      · simp only [get_expenses_from_sheet, hsorted]
        norm_num
        simp [hd]

/-- Witness for the amended C10: the empty store is returned untouched with
no write; a store with one full-width data row is sorted and written back. -/
theorem get_expenses_always_writes_witness :
    get_expenses_from_sheet [] = (([], false), none) ∧
    (get_expenses_from_sheet
        [defaultHeaders,
         [Cell.int 1, Cell.str "01/01/2024", Cell.str "Cement",
          Cell.str "ABC Co", Cell.str "B1", Cell.num 100]]).1
      = (sort_data_by_date
          [defaultHeaders,
           [Cell.int 1, Cell.str "01/01/2024", Cell.str "Cement",
            Cell.str "ABC Co", Cell.str "B1", Cell.num 100]], true) :=
  ⟨(get_expenses_always_writes []).1 (by decide),
   ((get_expenses_always_writes
      [defaultHeaders,
       [Cell.int 1, Cell.str "01/01/2024", Cell.str "Cement",
        Cell.str "ABC Co", Cell.str "B1", Cell.num 100]]).2 (by decide)).1⟩

end ExpenseTracker
